import Mathlib

/-
Formal model of the photo-reviewer application (`src/streamlit_app.py`).

Modelling conventions:
* Python strings are `List Char`; `str.find`, slicing, `split`, `in`,
  `lower`, `endswith` are modelled by the executable functions below.
* Python floats are modelled as rationals; `round(x, n)` is modelled by
  `pyRound n` (round-half-to-even on the scaled value, as Python does).
* Network and filesystem effects are passed in explicitly: the Drive API
  response is an `Except` value, a local directory is an optional list of
  file names (`none` = the directory does not exist), and the pixel-level
  metrics of a decodable image file are a `Metrics` value (`none` =
  `cv2.imread` cannot read the file as an image).
-/

/-- Convert a Lean string literal to the `List Char` representation used
throughout this development. -/
def str (s : String) : List Char := s.toList

/-- Model of Python `hay.find(needle)`: index of the first occurrence of
`needle` as a contiguous substring of `hay`, or `none` when absent (Python
returns `-1`). -/
def findSub (needle : List Char) : List Char → Option Nat
  | [] => if needle.isEmpty then some 0 else none
  | hay@(_ :: t) => if needle.isPrefixOf hay then some 0 else (findSub needle t).map (· + 1)

/-- Model of Python `needle in hay` (contiguous substring containment). -/
def containsSub (hay needle : List Char) : Bool := (findSub needle hay).isSome

/-- Model of Python `hay.find(c, start)`: first index `≥ start` holding the
character `c`, or `none`. -/
def findCharFrom (hay : List Char) (c : Char) (start : Nat) : Option Nat :=
  (findSub [c] (hay.drop start)).map (· + start)

/-- Model of the Python slice `hay[start:stop]` (indices clamp as in Python). -/
def sliceFromTo (hay : List Char) (start stop : Nat) : List Char :=
  (hay.take stop).drop start

/-- Everything after the first occurrence of `sep` (used for
`hay.split(sep)[1]`; callers guard on `sep in hay`, so the `none` case of
`findSub` is unreachable there and `[]` is a junk value). -/
def afterFirst (hay sep : List Char) : List Char :=
  match findSub sep hay with
  | some i => hay.drop (i + sep.length)
  | none => []

/-- Everything before the first occurrence of `sep`, or the whole string when
`sep` is absent; models `hay.split(sep)[0]`. -/
def upToFirst (hay sep : List Char) : List Char :=
  match findSub sep hay with
  | some i => hay.take i
  | none => hay

/-- Character class `[a-zA-Z0-9_-]` of the ID validation regex (ASCII, as in
Python). -/
def isIdChar (c : Char) : Bool := c.isAlpha || c.isDigit || c == '_' || c == '-'

/-- Core of the regex `^[a-zA-Z0-9_-]{5,}$`: at least five characters, all
from the class. -/
def idCoreB (s : List Char) : Bool := decide (5 ≤ s.length) && s.all isIdChar

/-- Model of Python `re.match(r'^[a-zA-Z0-9_-]{5,}$', s)` being truthy.
Python's `$` also matches just before a single newline at the very end of the
string, so for example `"abcde\n"` matches. -/
def reMatchIdB (s : List Char) : Bool :=
  if s.getLast? = some '\n' then idCoreB s.dropLast else idCoreB s

/-- The `'type'` tag of the dictionary returned by `extract_file_id_from_url`. -/
inductive RefType where
  | file
  | folder
deriving DecidableEq

/-- The dictionary `{'type': ..., 'id': ...}` returned by
`extract_file_id_from_url` on success. -/
structure RemoteRef where
  type : RefType
  id : List Char
deriving DecidableEq

/-- The single-file share-path marker `'file/d/'`. -/
def fileMarker : List Char := str "file/d/"

/-- The folder share-path marker `'folders/'`. -/
def foldersMarker : List Char := str "folders/"

/-- The raw-download query-parameter marker `'id='`. -/
def idMarker : List Char := str "id="

/-- Model of `extract_file_id_from_url` (src/streamlit_app.py, lines 82-109).
The `'id='` branch models `url.split('id=')[1].split('&')[0]`: the segment
between the first occurrence of `'id='` and the next occurrence of `'id='`
(or the end), cut at the first `'&'`. -/
def extract_file_id_from_url (url : List Char) : Option RemoteRef :=
  if url.isEmpty then none
  else if containsSub url fileMarker then
    let start := (findSub fileMarker url).getD 0 + fileMarker.length
    let file_id :=
      match findCharFrom url '/' start with
      | some stop => sliceFromTo url start stop
      | none => url.drop start
    if !file_id.isEmpty && reMatchIdB file_id then some ⟨RefType.file, file_id⟩ else none
  else if containsSub url foldersMarker then
    let start := (findSub foldersMarker url).getD 0 + foldersMarker.length
    let folder_id :=
      match findCharFrom url '?' start with
      | some stop => sliceFromTo url start stop
      | none => url.drop start
    if !folder_id.isEmpty && reMatchIdB folder_id then some ⟨RefType.folder, folder_id⟩ else none
  else if containsSub url idMarker then
    let file_id := upToFirst (upToFirst (afterFirst url idMarker) idMarker) (str "&")
    if !file_id.isEmpty && reMatchIdB file_id then some ⟨RefType.file, file_id⟩ else none
  else none

/-- Errors of the Drive listing call: `HttpError` from the API client, or any
other exception (both are caught by `list_files_in_folder`). -/
inductive DriveError where
  | httpError (msg : List Char)
  | otherError (msg : List Char)
deriving DecidableEq

/-- One entry of the raw provider listing (`fields="files(id, name, mimeType)"`). -/
structure RawDriveFile where
  id : List Char
  name : List Char
  mimeType : List Char
deriving DecidableEq

/-- One entry of the filtered listing returned by `list_files_in_folder`
(`{'id': ..., 'name': ...}`). -/
structure DriveEntry where
  id : List Char
  name : List Char
deriving DecidableEq

/-- Model of Python `s.lower()` (ASCII case folding; all strings in this
development are ASCII). -/
def lowerStr (s : List Char) : List Char := s.map Char.toLower

/-- The filter `fname.lower().endswith(('.jpg', '.jpeg', '.png'))` used by
`list_files_in_folder` (line 63) and `get_downloaded_files` (line 180). -/
def hasImageExtDot (name : List Char) : Bool :=
  (str ".jpg").isSuffixOf (lowerStr name) || (str ".jpeg").isSuffixOf (lowerStr name) ||
    (str ".png").isSuffixOf (lowerStr name)

/-- The filter `fname.lower().endswith(('jpg', 'jpeg', 'png'))` used by
`analyze_folder` (line 162) — note: no leading dots. -/
def isAnalyzedName (name : List Char) : Bool :=
  (str "jpg").isSuffixOf (lowerStr name) || (str "jpeg").isSuffixOf (lowerStr name) ||
    (str "png").isSuffixOf (lowerStr name)

/-- Model of `list_files_in_folder` (lines 27-79): the provider response is
passed in as an `Except` value; both `except` clauses return `[]`, the
success path applies the client-side extension filter in listing order. -/
def list_files_in_folder (resp : Except DriveError (List RawDriveFile)) : List DriveEntry :=
  match resp with
  | Except.error _ => []
  | Except.ok files =>
    if files.isEmpty then []
    else (files.filter (fun f => hasImageExtDot f.name)).map (fun f => ⟨f.id, f.name⟩)

/-- Model of `get_downloaded_files` (lines 170-182): `none` models a
non-existent directory (returns `{}`), otherwise the directory listing is
filtered to dotted image extensions; the result is the set of keys of the
returned dict. -/
def get_downloaded_files (dir : Option (List (List Char))) : List (List Char) :=
  match dir with
  | none => []
  | some files => files.filter (fun f => hasImageExtDot f)

/-- The deterministic cache filename `f"image_{result['id']}.jpg"` (line 208). -/
def imageFileName (id : List Char) : List Char := str "image_" ++ id ++ str ".jpg"

/-- Model of one sync pass of `main` (lines 200-255) for an already-resolved
reference. `disk` is the current cache-directory listing (`none` = directory
absent), `resp` the provider response for the folder case. `ok f` (resp.
`okFile`) tells whether the fetch-and-decode of a folder entry (resp. of the
single file) succeeds; a failing entry is reported and not persisted, as in
the code. Returns the number of downloads performed and the directory
listing afterwards. -/
def sync_step (ok : DriveEntry → Bool) (okFile : Bool) (ref : RemoteRef)
    (disk : Option (List (List Char))) (resp : Except DriveError (List RawDriveFile)) :
    Nat × List (List Char) :=
  let downloaded_files := get_downloaded_files disk
  let diskList := disk.getD []
  match ref.type with
  | RefType.file =>
    let file_name := imageFileName ref.id
    if file_name ∈ downloaded_files then (0, diskList)
    else (1, if okFile then diskList ++ [file_name] else diskList)
  | RefType.folder =>
    let files := list_files_in_folder resp
    let files_to_download := files.filter (fun f => decide (f.name ∉ downloaded_files))
    (files_to_download.length, diskList ++ (files_to_download.filter ok).map (fun f => f.name))

/-- The base pixel statistics computed by `evaluate_image` (lines 117-123)
from a decodable image: Laplacian variance, mean gray level, gray standard
deviation, mean HSV saturation, and the two clipping flags. -/
structure Metrics where
  sharpness : ℚ
  brightness : ℚ
  contrast : ℚ
  saturation : ℚ
  overexposed : Bool
  underexposed : Bool
deriving DecidableEq

/-- Round-half-to-even to an integer, as Python's builtin `round`. -/
def roundHalfEven (q : ℚ) : ℤ :=
  let f := ⌊q⌋
  let r := q - (f : ℚ)
  if r < 1/2 then f
  else if 1/2 < r then f + 1
  else if f % 2 = 0 then f else f + 1

/-- Model of Python `round(q, digits)` on the idealized (rational) value. -/
def pyRound (digits : ℕ) (q : ℚ) : ℚ :=
  (roundHalfEven (q * 10 ^ digits) : ℚ) / 10 ^ digits

/-- The `score` dictionary built by `evaluate_image` (lines 114-157). -/
structure Score where
  sharpness : ℚ
  brightness : ℚ
  contrast : ℚ
  saturation : ℚ
  overexposed : Bool
  underexposed : Bool
  final_score : ℚ
  faces : ℕ
deriving DecidableEq

/-- The score-assembly part of `evaluate_image` (lines 126-157), as a
function of the base metrics of a decodable image. -/
def evaluate_image_scores (m : Metrics) : Score :=
  let norm_sharpness := min (m.sharpness / 300) 1
  let norm_contrast := min (m.contrast / 100) 1
  let norm_saturation := min (m.saturation / 150) 1
  let exposure_penalty : ℚ := if m.overexposed || m.underexposed then 1 else 0
  let final_score :=
    0.4 * norm_sharpness + 0.2 * norm_contrast + 0.2 * norm_saturation +
      0.2 * (1 - exposure_penalty)
  { sharpness := pyRound 2 m.sharpness
    brightness := pyRound 2 m.brightness
    contrast := pyRound 2 m.contrast
    saturation := pyRound 2 m.saturation
    overexposed := m.overexposed
    underexposed := m.underexposed
    final_score := pyRound 3 final_score
    faces := 0 }

/-- Failure of `evaluate_image`: `cv2.imread` returns `None` on an unreadable
file and the subsequent `cv2.cvtColor` raises. -/
inductive EvalError where
  | imreadFailed
deriving DecidableEq

/-- Model of `evaluate_image` (lines 111-157): the argument is the decoded
content of the file at `filepath` (`none` when it cannot be read as an
image, in which case the function raises instead of returning). -/
def evaluate_image (content : Option Metrics) : Except EvalError Score :=
  match content with
  | none => Except.error EvalError.imreadFailed
  | some m => Except.ok (evaluate_image_scores m)

/-- One entry of a local directory listing: its filename and its decoded
image content (`none` = not readable as an image). -/
structure DirEntry where
  name : List Char
  content : Option Metrics
deriving DecidableEq

/-- One element of the result list of `analyze_folder`: the score dict
extended with `filename` and `path` (lines 165-166). -/
structure ScoreRecord extends Score where
  filename : List Char
  path : List Char
deriving DecidableEq

/-- Model of `os.path.join(folder, fname)` for a folder path without a
trailing separator. -/
def pathJoin (a b : List Char) : List Char := a ++ '/' :: b

/-- Model of `analyze_folder` (lines 159-168).  The loop body has no
`try`/`except`, so the first failing `evaluate_image` call propagates and
aborts the whole pass; this is modelled by the `Except` result. -/
def analyze_folder (folder : List Char) : List DirEntry → Except EvalError (List ScoreRecord)
  | [] => Except.ok []
  | e :: rest =>
    if isAnalyzedName e.name then
      match evaluate_image e.content with
      | Except.error err => Except.error err
      | Except.ok s =>
        match analyze_folder folder rest with
        | Except.error err => Except.error err
        | Except.ok rs =>
          Except.ok ({ toScore := s, filename := e.name, path := pathJoin folder e.name } :: rs)
    else analyze_folder folder rest

/-- The filenames carried by an `analyze_folder` result (`[]` on abort). -/
def recordNames (r : Except EvalError (List ScoreRecord)) : List (List Char) :=
  match r with
  | Except.error _ => []
  | Except.ok rs => rs.map (fun sr => sr.filename)

/-- Model of `np.mean` on a list of values (as used for brightness and
saturation). -/
def listMean (l : List ℚ) : ℚ := l.sum / l.length

/-- Model of `.var()` on a list of values (as used for the Laplacian
variance, i.e. sharpness). -/
def listVar (l : List ℚ) : ℚ := listMean (l.map (fun x => (x - listMean l) ^ 2))

/-- All-zero metrics, the model of a uniform black image region; used as a
concrete readable-image content in examples. -/
def mZero : Metrics := ⟨0, 0, 0, 0, false, false⟩

/-- Metrics at the saturation boundary of the sharpness normalization
(sharpness 10000, far above the cap 300). -/
def mBoundary : Metrics := ⟨10000, 128, 50, 200, false, false⟩

/-- Metrics whose composite score 1/3 is not representable in three decimal
digits, exposing the `round(final_score, 3)` step. -/
def mRoundingCex : Metrics := ⟨100, 0, 0, 0, false, false⟩

/-- The identifier pattern up to the end-anchor artifact: at least five
characters from `[a-zA-Z0-9_-]`, optionally followed by one trailing
newline (which Python's `$` tolerates). -/
def IdPatternUpToNewline (s : List Char) : Prop :=
  (5 ≤ s.length ∧ ∀ c ∈ s, isIdChar c = true) ∨
    (∃ t, s = t ++ ['\n'] ∧ 5 ≤ t.length ∧ ∀ c ∈ t, isIdChar c = true)

theorem idCoreB_spec {s : List Char} (h : idCoreB s = true) :
    5 ≤ s.length ∧ ∀ c ∈ s, isIdChar c = true := by
  unfold idCoreB at h
  rw [Bool.and_eq_true, decide_eq_true_eq, List.all_eq_true] at h
  exact h

theorem reMatchIdB_spec {s : List Char} (h : reMatchIdB s = true) : IdPatternUpToNewline s := by
  unfold reMatchIdB at h
  split at h
  · rename_i hl
    right
    have hne : s ≠ [] := by
      intro hnil; rw [hnil] at hl; simp at hl
    refine ⟨s.dropLast, ?_, idCoreB_spec h⟩
    have hlast : s.getLast hne = '\n' := by
      have := List.getLast?_eq_getLast s hne
      rw [this] at hl
      exact Option.some.inj hl
    conv_lhs => rw [← List.dropLast_append_getLast hne]
    rw [hlast]
  · exact Or.inl (idCoreB_spec h)

theorem lowerStr_append (a b : List Char) : lowerStr (a ++ b) = lowerStr a ++ lowerStr b :=
  List.map_append _ a b

theorem hasImageExtDot_imageFileName (id : List Char) :
    hasImageExtDot (imageFileName id) = true := by
  have h : (str ".jpg").isSuffixOf (lowerStr (imageFileName id)) = true := by
    rw [List.isSuffixOf_iff_suffix]
    unfold imageFileName
    rw [lowerStr_append]
    have hjpg : lowerStr (str ".jpg") = str ".jpg" := rfl
    rw [hjpg]
    exact List.suffix_append _ _
  unfold hasImageExtDot
  rw [h]
  rfl

theorem mem_list_files_ext {resp : Except DriveError (List RawDriveFile)} {e : DriveEntry}
    (he : e ∈ list_files_in_folder resp) : hasImageExtDot e.name = true := by
  cases resp with
  | error err => simp [list_files_in_folder] at he
  | ok files =>
    simp only [list_files_in_folder] at he
    split at he
    · simp at he
    · rcases List.mem_map.mp he with ⟨f, hf, rfl⟩
      exact (List.mem_filter.mp hf).2

theorem roundHalfEven_bounds (q : ℚ) :
    q - 1/2 ≤ (roundHalfEven q : ℚ) ∧ (roundHalfEven q : ℚ) ≤ q + 1/2 := by
  have hle : ((⌊q⌋ : ℚ)) ≤ q := Int.floor_le q
  have hlt : q < (⌊q⌋ : ℚ) + 1 := Int.lt_floor_add_one q
  simp only [roundHalfEven]
  split_ifs with h1 h2 h3 <;> constructor <;> push_cast <;> linarith

theorem pyRound_bounds01 (digits : ℕ) (x : ℚ) (h0 : 0 ≤ x) (h1 : x ≤ 1) :
    0 ≤ pyRound digits x ∧ pyRound digits x ≤ 1 := by
  have hpow : (0 : ℚ) < 10 ^ digits := by positivity
  obtain ⟨hlb, hub⟩ := roundHalfEven_bounds (x * 10 ^ digits)
  have hz0 : (0 : ℚ) ≤ x * 10 ^ digits := mul_nonneg h0 hpow.le
  have hz1 : x * 10 ^ digits ≤ 10 ^ digits := by
    calc x * 10 ^ digits ≤ 1 * 10 ^ digits := mul_le_mul_of_nonneg_right h1 hpow.le
    _ = 10 ^ digits := one_mul _
  have hm1 : (-1 : ℚ) < ((roundHalfEven (x * 10 ^ digits) : ℤ) : ℚ) := by linarith
  have hk0 : (0 : ℤ) ≤ roundHalfEven (x * 10 ^ digits) := by
    have h' : (-1 : ℤ) < roundHalfEven (x * 10 ^ digits) := by exact_mod_cast hm1
    omega
  have hq : ((roundHalfEven (x * 10 ^ digits) : ℤ) : ℚ) < (10 : ℚ) ^ digits + 1 := by linarith
  have hzq : roundHalfEven (x * 10 ^ digits) < (10 : ℤ) ^ digits + 1 := by exact_mod_cast hq
  have hk1 : ((roundHalfEven (x * 10 ^ digits) : ℤ) : ℚ) ≤ (10 : ℚ) ^ digits := by
    have h' : roundHalfEven (x * 10 ^ digits) ≤ (10 : ℤ) ^ digits := by omega
    exact_mod_cast h'
  unfold pyRound
  constructor
  · exact div_nonneg (by exact_mod_cast hk0) hpow.le
  · rw [div_le_one hpow]
    exact hk1

theorem listMean_nonneg (l : List ℚ) (h : ∀ x ∈ l, 0 ≤ x) : 0 ≤ listMean l :=
  div_nonneg (List.sum_nonneg h) (Nat.cast_nonneg _)

theorem listVar_nonneg (l : List ℚ) : 0 ≤ listVar l := by
  refine listMean_nonneg _ ?_
  intro x hx
  rcases List.mem_map.mp hx with ⟨y, _, rfl⟩
  positivity

/-- C3: for every input string in which none of the three link markers
(`'file/d/'`, `'folders/'`, `'id='`) occurs, `extract_file_id_from_url`
returns `none` — no bare string is resolved to a guessed reference type. -/
theorem extract_no_marker_none :
    ∀ url : List Char,
      containsSub url fileMarker = false →
      containsSub url foldersMarker = false →
      containsSub url idMarker = false →
      extract_file_id_from_url url = none := by
  intro url h1 h2 h3
  unfold extract_file_id_from_url
  simp [h1, h2, h3]

theorem extract_no_marker_none_witness :
    containsSub (str "http://example.com") fileMarker = false ∧
      containsSub (str "http://example.com") foldersMarker = false ∧
      containsSub (str "http://example.com") idMarker = false ∧
      extract_file_id_from_url (str "http://example.com") = none :=
  ⟨by decide, by decide, by decide,
    extract_no_marker_none _ (by decide) (by decide) (by decide)⟩

/-- C4: the code evaluated at the claim's input: `extract_file_id_from_url`
on the bare identifier `"abc123def456"` returns `none` (no marker matches),
whereas the claim — and the repository's own unit test
(`test_streamlit_app.py`, `test_extract_file_id_from_url`) — expects
`{'type': 'file', 'id': 'abc123def456'}`; the code contradicts its test. -/
theorem extract_bare_id_returns_none :
    extract_file_id_from_url (str "abc123def456") = none := by decide

/-- C5 counterexample: on the input `"file/d/abcde\n"` the resolver returns a
reference whose id `"abcde\n"` ends in a newline (admitted by Python's `$`
anchor), so the id does not consist solely of alphanumeric, `-`, `_`
characters as the claim states. -/
theorem extract_id_pattern_counterexample :
    extract_file_id_from_url (str "file/d/abcde\n") =
        some ⟨RefType.file, str "abcde\n"⟩ ∧
      ¬ (∀ c ∈ str "abcde\n", isIdChar c = true) := by
  constructor
  · decide
  · decide

/-- C5 (amended): whenever `extract_file_id_from_url` returns a reference,
its id consists of at least five characters from `[a-zA-Z0-9_-]`, optionally
followed by one trailing newline (an artifact of the regex end anchor);
candidates failing this validation yield `none`. -/
theorem extract_id_pattern_up_to_newline :
    ∀ (url : List Char) (r : RemoteRef),
      extract_file_id_from_url url = some r → IdPatternUpToNewline r.id := by
  intro url r h
  simp only [extract_file_id_from_url] at h
  split at h
  · exact absurd h (by simp)
  · split at h
    · split at h
      · rename_i hguard
        rw [Bool.and_eq_true] at hguard
        cases h
        exact reMatchIdB_spec hguard.2
      · exact absurd h (by simp)
    · split at h
      · split at h
        · rename_i hguard
          rw [Bool.and_eq_true] at hguard
          cases h
          exact reMatchIdB_spec hguard.2
        · exact absurd h (by simp)
      · split at h
        · split at h
          · rename_i hguard
            rw [Bool.and_eq_true] at hguard
            cases h
            exact reMatchIdB_spec hguard.2
          · exact absurd h (by simp)
        · exact absurd h (by simp)

theorem extract_id_pattern_up_to_newline_witness :
    extract_file_id_from_url (str "file/d/abc12") = some ⟨RefType.file, str "abc12"⟩ ∧
      IdPatternUpToNewline (str "abc12") :=
  ⟨by decide,
    extract_id_pattern_up_to_newline (str "file/d/abc12") ⟨RefType.file, str "abc12"⟩
      (by decide)⟩

/-- C6: for every listing error (API `HttpError` or any other exception),
`list_files_in_folder` does not propagate it: it returns `[]`, the same
value it returns for a genuinely empty listing, so the caller cannot
distinguish the two. -/
theorem list_files_error_empty :
    ∀ e : DriveError,
      list_files_in_folder (Except.error e) = [] ∧
        list_files_in_folder (Except.ok []) = [] := by
  intro e
  exact ⟨rfl, rfl⟩

/-- C7: on a successful response, `list_files_in_folder` returns exactly the
entries whose filename ends (case-insensitively) in `.jpg`, `.jpeg` or
`.png`, in the provider's original order; in particular a listing of one
`.jpg`, one `.pdf` and one `.png` yields the two image entries in order. -/
theorem list_files_filters_images :
    (∀ files : List RawDriveFile,
        list_files_in_folder (Except.ok files) =
          (files.filter (fun f => hasImageExtDot f.name)).map
            (fun f => ({ id := f.id, name := f.name } : DriveEntry))) ∧
      list_files_in_folder
          (Except.ok
            [⟨str "id1", str "photo1.jpg", str "image/jpeg"⟩,
              ⟨str "id2", str "doc.pdf", str "application/pdf"⟩,
              ⟨str "id3", str "photo2.png", str "image/png"⟩]) =
        [⟨str "id1", str "photo1.jpg"⟩, ⟨str "id3", str "photo2.png"⟩] := by
  constructor
  · intro files
    cases files with
    | nil => rfl
    | cons f t => rfl
  · decide

theorem sync_step_file_snd_skip {id : List Char} {disk : Option (List (List Char))}
    {resp : Except DriveError (List RawDriveFile)}
    (h : imageFileName id ∈ get_downloaded_files disk) :
    (sync_step (fun _ => true) true ⟨RefType.file, id⟩ disk resp).2 = disk.getD [] := by
  simp [sync_step, h]

theorem sync_step_file_snd_fetch {id : List Char} {disk : Option (List (List Char))}
    {resp : Except DriveError (List RawDriveFile)}
    (h : imageFileName id ∉ get_downloaded_files disk) :
    (sync_step (fun _ => true) true ⟨RefType.file, id⟩ disk resp).2 =
      disk.getD [] ++ [imageFileName id] := by
  simp [sync_step, h]

theorem sync_step_folder_snd (id : List Char) (disk : Option (List (List Char)))
    (resp : Except DriveError (List RawDriveFile)) :
    (sync_step (fun _ => true) true ⟨RefType.folder, id⟩ disk resp).2 =
      disk.getD [] ++ ((list_files_in_folder resp).filter
        (fun g => decide (g.name ∉ get_downloaded_files disk))).map (fun g => g.name) := by
  simp [sync_step]

/-- C2: sync is idempotent.  With every fetch and decode succeeding (the
success predicates instantiated to `true`), a second sync pass against the
unchanged remote performs zero downloads: for a folder reference every
listed name is already in the cache scan, and for a file reference the
deterministic name `image_<id>.jpg` is already present. -/
theorem sync_step_idempotent :
    ∀ (ref : RemoteRef) (disk : Option (List (List Char)))
      (resp : Except DriveError (List RawDriveFile)),
      (sync_step (fun _ => true) true ref
          (some (sync_step (fun _ => true) true ref disk resp).2) resp).1 = 0 := by
  intro ref disk resp
  obtain ⟨t, id⟩ := ref
  cases t with
  | file =>
    by_cases h : imageFileName id ∈ get_downloaded_files disk
    · rw [sync_step_file_snd_skip h]
      cases disk with
      | none => simp [get_downloaded_files] at h
      | some l => simp [sync_step, h]
    · rw [sync_step_file_snd_fetch h]
      have h2 : imageFileName id ∈
          get_downloaded_files (some (disk.getD [] ++ [imageFileName id])) := by
        simp only [get_downloaded_files]
        exact List.mem_filter.mpr
          ⟨List.mem_append_right _ (List.mem_singleton_self _), hasImageExtDot_imageFileName id⟩
      simp [sync_step, h2]
  | folder =>
    rw [sync_step_folder_snd]
    have hall : ∀ f ∈ list_files_in_folder resp,
        f.name ∈ get_downloaded_files
          (some (disk.getD [] ++ ((list_files_in_folder resp).filter
            (fun g => decide (g.name ∉ get_downloaded_files disk))).map (fun g => g.name))) := by
      intro f hf
      have hext := mem_list_files_ext hf
      simp only [get_downloaded_files]
      by_cases hmem : f.name ∈ get_downloaded_files disk
      · cases disk with
        | none => simp [get_downloaded_files] at hmem
        | some l =>
          refine List.mem_filter.mpr ⟨List.mem_append_left _ ?_, hext⟩
          have hl : f.name ∈ l.filter (fun g => hasImageExtDot g) := by
            simpa [get_downloaded_files] using hmem
          simpa using (List.mem_filter.mp hl).1
      · refine List.mem_filter.mpr ⟨List.mem_append_right _ ?_, hext⟩
        refine List.mem_map.mpr ⟨f, ?_, rfl⟩
        exact List.mem_filter.mpr ⟨hf, by simpa using hmem⟩
    simp only [sync_step]
    simp
    intro f hf
    simpa using hall f hf

/-- C1: for every metric tuple of an input image — sharpness (a variance),
contrast (a standard deviation) and saturation (a mean of nonnegative
channel values) are nonnegative for arbitrary pixel content, compare
`listVar_nonneg` and `listMean_nonneg` — each normalization term saturates
at 1 and the `final_score` field of the record returned by `evaluate_image`
lies in the closed interval `[0, 1]`. -/
theorem evaluate_image_final_score_mem_unit :
    ∀ m : Metrics, 0 ≤ m.sharpness → 0 ≤ m.contrast → 0 ≤ m.saturation →
      (min (m.sharpness / 300) 1 ≤ 1 ∧ min (m.contrast / 100) 1 ≤ 1 ∧
          min (m.saturation / 150) 1 ≤ 1) ∧
        evaluate_image (some m) = Except.ok (evaluate_image_scores m) ∧
        0 ≤ (evaluate_image_scores m).final_score ∧
        (evaluate_image_scores m).final_score ≤ 1 := by
  intro m hs hc hsat
  refine ⟨⟨min_le_right _ _, min_le_right _ _, min_le_right _ _⟩, rfl, ?_⟩
  have ha0 : (0:ℚ) ≤ min (m.sharpness / 300) 1 := le_min (by positivity) zero_le_one
  have hb0 : (0:ℚ) ≤ min (m.contrast / 100) 1 := le_min (by positivity) zero_le_one
  have hd0 : (0:ℚ) ≤ min (m.saturation / 150) 1 := le_min (by positivity) zero_le_one
  have ha1 : min (m.sharpness / 300) 1 ≤ (1:ℚ) := min_le_right _ _
  have hb1 : min (m.contrast / 100) 1 ≤ (1:ℚ) := min_le_right _ _
  have hd1 : min (m.saturation / 150) 1 ≤ (1:ℚ) := min_le_right _ _
  have hfield : (evaluate_image_scores m).final_score =
      pyRound 3 (0.4 * min (m.sharpness / 300) 1 + 0.2 * min (m.contrast / 100) 1 +
        0.2 * min (m.saturation / 150) 1 +
        0.2 * (1 - if m.overexposed || m.underexposed then (1:ℚ) else 0)) := rfl
  rw [hfield]
  have hP0 : (0:ℚ) ≤ (if (m.overexposed || m.underexposed) = true then (1:ℚ) else 0) := by
    split <;> norm_num
  have hP1 : (if (m.overexposed || m.underexposed) = true then (1:ℚ) else 0) ≤ 1 := by
    split <;> norm_num
  exact pyRound_bounds01 3 _ (by linarith) (by linarith)

theorem evaluate_image_final_score_mem_unit_witness :
    (0:ℚ) ≤ mBoundary.sharpness ∧ (0:ℚ) ≤ mBoundary.contrast ∧
      (0:ℚ) ≤ mBoundary.saturation ∧
      ((min (mBoundary.sharpness / 300) 1 ≤ 1 ∧ min (mBoundary.contrast / 100) 1 ≤ 1 ∧
          min (mBoundary.saturation / 150) 1 ≤ 1) ∧
        evaluate_image (some mBoundary) = Except.ok (evaluate_image_scores mBoundary) ∧
        0 ≤ (evaluate_image_scores mBoundary).final_score ∧
        (evaluate_image_scores mBoundary).final_score ≤ 1) :=
  ⟨by decide, by decide, by decide,
    evaluate_image_final_score_mem_unit mBoundary (by decide) (by decide) (by decide)⟩

/-- C9 counterexample: at metrics with sharpness 100 and no clipping the
weighted formula evaluates to `1/3`, but the `final_score` field stored by
`evaluate_image` is `round(1/3, 3) = 0.333 ≠ 1/3` — the returned field is
not exactly the formula value. -/
theorem final_score_rounding_counterexample :
    (evaluate_image_scores mRoundingCex).final_score ≠
      0.4 * min (mRoundingCex.sharpness / 300) 1 + 0.2 * min (mRoundingCex.contrast / 100) 1 +
        0.2 * min (mRoundingCex.saturation / 150) 1 +
        0.2 * (1 - if mRoundingCex.overexposed || mRoundingCex.underexposed then (1:ℚ) else 0) := by
  have hL : (evaluate_image_scores mRoundingCex).final_score = pyRound 3 (1/3 : ℚ) := by
    show pyRound 3 _ = pyRound 3 (1/3 : ℚ)
    congr 1
    simp only [mRoundingCex]
    norm_num [min_def]
  have hpy : pyRound 3 (1/3 : ℚ) = 333/1000 := by
    simp only [pyRound, roundHalfEven]
    have h1 : ((1:ℚ)/3) * 10 ^ 3 = 1000/3 := by norm_num
    rw [h1]
    have hfl : ⌊(1000/3 : ℚ)⌋ = 333 := by norm_num
    rw [hfl]
    rw [if_pos (by push_cast; norm_num : (1000/3 : ℚ) - ((333 : ℤ) : ℚ) < 1/2)]
    push_cast
    norm_num
  rw [hL, hpy]
  simp only [mRoundingCex]
  norm_num [min_def]

/-- C9 (amended): for every input image the `final_score` field returned by
`evaluate_image` equals the weighted formula
`0.4*normSharpness + 0.2*normContrast + 0.2*normSaturation +
0.2*(1 - exposurePenalty)` rounded to three decimal digits
(`round(final_score, 3)`, line 146); the unrounded formula value is
computed internally but the stored field is the rounded one. -/
theorem final_score_eq_rounded_formula :
    ∀ m : Metrics,
      (evaluate_image_scores m).final_score =
        pyRound 3 (0.4 * min (m.sharpness / 300) 1 + 0.2 * min (m.contrast / 100) 1 +
          0.2 * min (m.saturation / 150) 1 +
          0.2 * (1 - if m.overexposed || m.underexposed then (1:ℚ) else 0)) := by
  intro m
  rfl

/-- C8 counterexample: in a directory of three recognized files whose middle
file is unreadable, `analyze_folder` returns the propagated failure instead
of the records of the two readable files; the same directory without the
unreadable file succeeds — so one file's failure is fatal to the batch,
contrary to the claim. -/
theorem analyze_folder_abort_counterexample :
    analyze_folder (str "photos")
        [⟨str "a.jpg", some mZero⟩, ⟨str "b.jpg", none⟩, ⟨str "c.jpg", some mZero⟩] =
      Except.error EvalError.imreadFailed ∧
      (analyze_folder (str "photos")
          [⟨str "a.jpg", some mZero⟩, ⟨str "c.jpg", some mZero⟩]).isOk = true :=
  ⟨rfl, rfl⟩

/-- C8 (amended): `analyze_folder` has no per-file exception handling, so if
`evaluate_image` fails on any recognized file the failure propagates and the
whole pass aborts with no records; only when every recognized file evaluates
successfully does it return one record per recognized file, in
directory-listing order. -/
theorem analyze_folder_all_or_abort :
    ∀ (folder : List Char) (dir : List DirEntry),
      ((∃ e ∈ dir, isAnalyzedName e.name = true ∧ e.content = none) →
          analyze_folder folder dir = Except.error EvalError.imreadFailed) ∧
        ((∀ e ∈ dir, isAnalyzedName e.name = true → e.content ≠ none) →
          (analyze_folder folder dir).isOk = true ∧
            recordNames (analyze_folder folder dir) =
              (dir.filter (fun e => isAnalyzedName e.name)).map (fun e => e.name)) := by
  intro folder dir
  induction dir with
  | nil =>
    constructor
    · rintro ⟨e, he, -, -⟩
      exact absurd he (List.not_mem_nil e)
    · intro _
      exact ⟨rfl, rfl⟩
  | cons e rest ih =>
    constructor
    · rintro ⟨a, ha, hname, hcontent⟩
      rcases List.mem_cons.mp ha with rfl | hrest
      · simp [analyze_folder, hname, hcontent, evaluate_image]
      · by_cases hh : isAnalyzedName e.name = true
        · cases hchead : e.content with
          | none => simp [analyze_folder, hh, hchead, evaluate_image]
          | some m =>
            have herr := ih.1 ⟨a, hrest, hname, hcontent⟩
            simp [analyze_folder, hh, hchead, evaluate_image, herr]
        · have herr := ih.1 ⟨a, hrest, hname, hcontent⟩
          simp [analyze_folder, hh, herr]
    · intro hall
      by_cases hh : isAnalyzedName e.name = true
      · cases hchead : e.content with
        | none => exact absurd hchead (hall e (List.mem_cons_self e rest) hh)
        | some m =>
          obtain ⟨hok, hnames⟩ := ih.2 (fun a ha hn => hall a (List.mem_cons_of_mem e ha) hn)
          cases hrest : analyze_folder folder rest with
          | error err =>
            rw [hrest] at hok
            simp [Except.isOk, Except.toBool] at hok
          | ok rs =>
            rw [hrest] at hnames
            constructor
            · simp [analyze_folder, hh, hchead, evaluate_image, hrest, Except.isOk,
                Except.toBool]
            · simp only [analyze_folder, hh, hchead, evaluate_image, hrest, if_pos,
                recordNames, List.filter_cons_of_pos, List.map_cons]
              simpa [recordNames] using hnames
      · have hres := ih.2 (fun a ha hn => hall a (List.mem_cons_of_mem e ha) hn)
        constructor
        · simpa [analyze_folder, hh] using hres.1
        · simpa [analyze_folder, hh] using hres.2

theorem analyze_folder_all_or_abort_witness :
    analyze_folder (str "photos") [⟨str "x.jpg", none⟩] =
        Except.error EvalError.imreadFailed ∧
      ((analyze_folder (str "photos") [⟨str "y.jpg", some mZero⟩]).isOk = true ∧
        recordNames (analyze_folder (str "photos") [⟨str "y.jpg", some mZero⟩]) =
          (([⟨str "y.jpg", some mZero⟩] : List DirEntry).filter
            (fun e => isAnalyzedName e.name)).map (fun e => e.name)) :=
  ⟨(analyze_folder_all_or_abort (str "photos") [⟨str "x.jpg", none⟩]).1
      ⟨⟨str "x.jpg", none⟩, List.mem_singleton_self _, by decide, rfl⟩,
    (analyze_folder_all_or_abort (str "photos") [⟨str "y.jpg", some mZero⟩]).2 (by decide)⟩

/-- C10: the filename filter of `analyze_folder` (suffixes `jpg`, `jpeg`,
`png` without a dot) strictly contains the filter of the cache scan
`get_downloaded_files` (dotted extensions): every cached-recognized name is
analyzed, while `"reportjpg"` is analyzed and scored but never counted as
already cached. -/
theorem analyze_ext_superset_of_cache_ext :
    (∀ name : List Char, hasImageExtDot name = true → isAnalyzedName name = true) ∧
      isAnalyzedName (str "reportjpg") = true ∧
      hasImageExtDot (str "reportjpg") = false ∧
      get_downloaded_files (some [str "reportjpg"]) = [] ∧
      recordNames (analyze_folder (str "photos") [⟨str "reportjpg", some mZero⟩]) =
        [str "reportjpg"] := by
  refine ⟨?_, by decide, by decide, rfl, rfl⟩
  intro name h
  have step : ∀ dotted plain : List Char, dotted.isSuffixOf (lowerStr name) = true →
      plain <:+ dotted → plain.isSuffixOf (lowerStr name) = true := by
    intro dotted plain hsuf hsub
    rw [List.isSuffixOf_iff_suffix] at hsuf ⊢
    exact hsub.trans hsuf
  unfold hasImageExtDot at h
  unfold isAnalyzedName
  simp only [Bool.or_eq_true] at h
  rcases h with (h | h) | h
  · have := step (str ".jpg") (str "jpg") h ⟨['.'], rfl⟩
    simp [this]
  · have := step (str ".jpeg") (str "jpeg") h ⟨['.'], rfl⟩
    simp [this]
  · have := step (str ".png") (str "png") h ⟨['.'], rfl⟩
    simp [this]

theorem analyze_ext_superset_of_cache_ext_witness :
    hasImageExtDot (str "portrait.png") = true ∧ isAnalyzedName (str "portrait.png") = true :=
  ⟨by decide, analyze_ext_superset_of_cache_ext.1 (str "portrait.png") (by decide)⟩
